import Mathlib

/-!
Verification of the hammertalk push-to-talk dictation daemon.

The development shallowly embeds the two source files of the repository:
`src/lib.rs` (pure sample-conversion helpers and the keystroke wrapper) and
`src/main.rs` (the realtime audio callback, the signal-driven recording state
machine, and the startup sequence).  Real (`f32`/`f64`) arithmetic from the
source is modelled exactly over the rationals; machine indices are natural
numbers, with Rust's `saturating_sub` mapped to truncated `Nat` subtraction;
Rust strings are modelled as character lists.  External capabilities (the
transcription engine) are passed as oracles.
-/

namespace Hammertalk

/-- Target sample rate: the constant `SAMPLE_RATE` of lib.rs / main.rs. -/
def SAMPLE_RATE : ℕ := 16000

/-- Rust slice iterator `chunks c`: pieces of length `c` in order, the last
piece possibly shorter.  (`chunks 0` panics in Rust and is never called by
this codebase; the embedding returns `[]` there.) -/
def chunks (c : ℕ) (l : List ℚ) : List (List ℚ) :=
  (List.range ((l.length + c - 1) / c)).map fun k => (l.drop (k * c)).take c

/-- lib.rs `to_mono`: average every `channels`-sized frame of the interleaved
input. -/
def to_mono (samples : List ℚ) (channels : ℕ) : List ℚ :=
  (chunks channels samples).map fun chunk => chunk.sum / (channels : ℚ)

/-- The source index computed by lib.rs `resample`:
`(i as f64 * ratio) as usize` (truncation of a nonnegative real = floor). -/
def srcIdx (r : ℚ) (i : ℕ) : ℕ := (⌊(i : ℚ) * r⌋).toNat

/-- lib.rs `resample`: nearest-neighbor rate conversion.  Equal rates return
the input unchanged; otherwise each output index reads the input at
`srcIdx`, defaulting to `0` out of range. -/
def resample (samples : List ℚ) (source_rate target_rate : ℕ) : List ℚ :=
  if source_rate = target_rate then samples
  else
    (List.range
        ((⌈(samples.length : ℚ) / ((source_rate : ℚ) / (target_rate : ℚ))⌉).toNat)).map
      fun i => samples.getD (srcIdx ((source_rate : ℚ) / (target_rate : ℚ)) i) 0

/-- lib.rs `needs_resample`: the quotient of the rates deviates from 1 by
more than 0.001. -/
def needs_resample (source_rate target_rate : ℕ) : Bool :=
  decide ((1 : ℚ) / 1000 < |(source_rate : ℚ) / (target_rate : ℚ) - 1|)

/-- Target index computed by the main.rs callback for the frame at batch
position `i`: `(i as f32 / resample_ratio) as usize` (truncation of a
nonnegative real = floor). -/
def targetIdx (r : ℚ) (i : ℕ) : ℕ := (⌊(i : ℚ) / r⌋).toNat

/-- One iteration of the main.rs callback loop when resampling: push the
downmixed sample iff the target index is at least the buffer length, or the
buffer is empty, or the target index differs from the one computed for
position `i - 1` (Rust `i.saturating_sub(1)` = truncated `Nat` subtraction). -/
def decimateStep (r : ℚ) (b : List ℚ) (i : ℕ) (sample : ℚ) : List ℚ :=
  if b.length ≤ targetIdx r i ∨ b = [] ∨ targetIdx r i ≠ targetIdx r (i - 1)
  then b ++ [sample] else b

/-- The `for (i, chunk) in data.chunks(channels).enumerate()` loop of the
main.rs callback, processing the chunk list from batch position `i`. -/
def callbackLoop (needsRes : Bool) (r : ℚ) (channels : ℕ) :
    ℕ → List ℚ → List (List ℚ) → List ℚ
  | _, b, [] => b
  | i, b, chunk :: rest =>
      callbackLoop needsRes r channels (i + 1)
        (if needsRes then decimateStep r b i (chunk.sum / (channels : ℚ))
         else b ++ [chunk.sum / (channels : ℚ)]) rest

/-- Result of one audio-callback invocation: the capture-buffer contents and
whether the buffer lock was taken. -/
structure CallbackEffect where
  buffer : List ℚ
  lockAcquired : Bool
  deriving DecidableEq

/-- The main.rs `build_input_stream` data callback: when the recording flag
is down it returns at once without touching the lock; otherwise it locks the
buffer and runs the downmix/decimate loop over the frame batch. -/
def record_audio_callback (recording : Bool) (channels : ℕ) (needsRes : Bool)
    (r : ℚ) (buf data : List ℚ) : CallbackEffect :=
  if recording then
    { buffer := callbackLoop needsRes r channels 0 buf (chunks channels data),
      lockAcquired := true }
  else { buffer := buf, lockAcquired := false }

/-- Samples kept by the streaming decimation rule from batch position
`i ≥ 1` on: a frame is kept exactly when its target index differs from the
previous frame's. -/
def specTail (r : ℚ) (channels : ℕ) : ℕ → List (List ℚ) → List ℚ
  | _, [] => []
  | i, chunk :: rest =>
      (if targetIdx r i = targetIdx r (i - 1) then []
       else [chunk.sum / (channels : ℚ)]) ++ specTail r channels (i + 1) rest

/-- The amended per-batch decimation rule: the frame at position 0 is kept
iff the buffer is empty at callback entry; every later frame is kept iff its
target index differs from its predecessor's; kept samples are appended in
arrival order. -/
def specDecimate (r : ℚ) (channels : ℕ) (buf : List ℚ)
    (cs : List (List ℚ)) : List ℚ :=
  match cs with
  | [] => buf
  | chunk :: rest =>
      (if buf = [] then buf ++ [chunk.sum / (channels : ℚ)] else buf) ++
        specTail r channels 1 rest

/-- Rust `str::trim` on the character-list model of strings: drop whitespace
from both ends. -/
def trim (text : List Char) : List Char :=
  ((text.dropWhile Char.isWhitespace).reverse.dropWhile Char.isWhitespace).reverse

/-- lib.rs `type_text`: when the trimmed text is empty, skip; otherwise run
the `ydotool` keystroke injector.  The returned list extends the given log
of injector invocations. -/
def type_text (injected : List (List Char)) (text : List Char) :
    List (List Char) :=
  if trim text = [] then injected else injected ++ [text]

/-- The four control signals consumed by the main.rs signal loop. -/
inductive Signal
  | sigusr1
  | sigusr2
  | sigterm
  | sigint

/-- Result of the external transcription engine: the recognized text. -/
structure TranscribeResult where
  text : List Char

/-- The daemon state touched by one iteration of the main.rs signal loop:
the two atomic flags and the shutdown flag, the capture buffer, and
observation logs of engine invocations and injector invocations. -/
structure DaemonState where
  recording : Bool
  stopRequested : Bool
  shutdown : Bool
  buffer : List ℚ
  engineCalls : List (List ℚ)
  injected : List (List Char)

/-- One iteration of the main.rs `for sig in signals.forever()` loop, with
the external transcription engine passed as an oracle.  A start signal while
idle clears the buffer and raises the flag; a stop signal while recording
lowers the flag, snapshots the buffer, skips empty snapshots, and otherwise
dispatches to the engine and forwards trimmed non-empty text to
`type_text`; terminating signals raise the shutdown flag. -/
def handleSignal (engine : List ℚ → Except (List Char) TranscribeResult)
    (s : DaemonState) (sig : Signal) : DaemonState :=
  match sig with
  | .sigusr1 =>
      if !s.recording then
        { s with buffer := [], stopRequested := false, recording := true }
      else s
  | .sigusr2 =>
      if s.recording then
        let s1 : DaemonState := { s with recording := false, stopRequested := true }
        if s1.buffer = [] then s1
        else
          let s2 : DaemonState := { s1 with engineCalls := s1.engineCalls ++ [s1.buffer] }
          match engine s1.buffer with
          | .ok result =>
              if trim result.text ≠ [] then
                { s2 with injected := type_text s2.injected (trim result.text) }
              else s2
          | .error _ => s2
      else s
  | .sigterm => { s with shutdown := true }
  | .sigint => { s with shutdown := true }

/-- A concrete engine oracle used by witnesses: always fails. -/
def engine0 : List ℚ → Except (List Char) TranscribeResult :=
  fun _ => .error ['e']

/-- A concrete idle daemon state used by witnesses. -/
def idle0 : DaemonState :=
  { recording := false, stopRequested := false, shutdown := false,
    buffer := [1], engineCalls := [], injected := [] }

/-- A concrete recording daemon state with an empty capture buffer, used by
witnesses. -/
def rec0 : DaemonState :=
  { recording := true, stopRequested := false, shutdown := false,
    buffer := [], engineCalls := [], injected := [] }

/-- Success flags of the four main.rs startup steps: writing the PID marker,
loading the model, setting up the audio stream, starting it. -/
structure StartupEnv where
  pidWriteOk : Bool
  modelLoadOk : Bool
  audioSetupOk : Bool
  streamPlayOk : Bool

/-- Observable outcome of the main.rs startup sequence: the exit status when
the process terminated during startup (`none` = startup completed), and
whether `remove_pid_file` was invoked before exiting. -/
structure StartupOutcome where
  exitCode : Option ℕ
  pidRemoved : Bool
  deriving DecidableEq

/-- The main.rs startup sequence, each failure branch modelled exactly as in
the source: a marker-write failure exits with status 1 without removal; the
model-load, audio-setup and stream-start failures remove the marker and exit
with status 1. -/
def startup (env : StartupEnv) : StartupOutcome :=
  if !env.pidWriteOk then { exitCode := some 1, pidRemoved := false }
  else if !env.modelLoadOk then { exitCode := some 1, pidRemoved := true }
  else if !env.audioSetupOk then { exitCode := some 1, pidRemoved := true }
  else if !env.streamPlayOk then { exitCode := some 1, pidRemoved := true }
  else { exitCode := none, pidRemoved := false }

/-- C4: `needs_resample` holds iff the rate quotient deviates from 1 by more
than 0.001; it is false on any pair of equal positive rates, false on
16000 vs 16001 (within 0.1 percent) and true on 16000 vs 16017 (beyond). -/
theorem needs_resample_spec :
    (∀ s t : ℕ, needs_resample s t = true ↔
      (1 : ℚ) / 1000 < |(s : ℚ) / (t : ℚ) - 1|) ∧
    (∀ r : ℕ, 0 < r → needs_resample r r = false) ∧
    needs_resample 16000 16001 = false ∧
    needs_resample 16000 16017 = true := by
  refine ⟨fun s t => by simp [needs_resample], fun r hr => ?_, ?_, ?_⟩
  · have h : (r : ℚ) ≠ 0 := by exact_mod_cast hr.ne'
    simp [needs_resample, div_self h]
  · have habs : |(16000 : ℚ) / 16001 - 1| = 1 / 16001 := by
      rw [abs_of_nonpos (by norm_num)]
      norm_num
    have hno : ¬((1 : ℚ) / 1000 < |(16000 : ℚ) / 16001 - 1|) := by
      rw [habs]
      norm_num
    simpa [needs_resample] using hno
  · have habs : |(16000 : ℚ) / 16017 - 1| = 17 / 16017 := by
      rw [abs_of_nonpos (by norm_num)]
      norm_num
    have hyes : (1 : ℚ) / 1000 < |(16000 : ℚ) / 16017 - 1| := by
      rw [habs]
      norm_num
    simpa [needs_resample] using hyes

/-- C4 witness: equal rates at 16000 Hz need no resampling. -/
theorem needs_resample_spec_witness : needs_resample 16000 16000 = false :=
  needs_resample_spec.2.1 16000 (by decide)

theorem chunks_length (c : ℕ) (l : List ℚ) :
    (chunks c l).length = (l.length + c - 1) / c := by
  simp [chunks]

theorem chunks_getElem (c : ℕ) (l : List ℚ) (k : ℕ) (h : k < (chunks c l).length) :
    (chunks c l).get ⟨k, h⟩ = (l.drop (k * c)).take c := by
  simp only [chunks, List.get_eq_getElem, List.getElem_map, List.getElem_range]

theorem add_pred_div_of_dvd {c n : ℕ} (hc : 0 < c) (h : c ∣ n) :
    (n + c - 1) / c = n / c := by
  obtain ⟨k, rfl⟩ := h
  have h1 : c * k + c - 1 = c - 1 + c * k := by
    rw [Nat.add_sub_assoc hc]
    exact Nat.add_comm _ _
  rw [h1, Nat.add_mul_div_left _ _ hc, Nat.div_eq_of_lt (by omega),
    Nat.mul_div_cancel_left _ hc, Nat.zero_add]

theorem to_mono_one (l : List ℚ) : to_mono l 1 = l := by
  apply List.ext_getElem
  · simp [to_mono, chunks]
  · intro i h1 h2
    have hch : i < (chunks 1 l).length := by
      simpa [to_mono] using h1
    simp only [to_mono, List.getElem_map]
    have := chunks_getElem 1 l i hch
    simp only [List.get_eq_getElem] at this
    rw [this, Nat.mul_one, List.drop_eq_getElem_cons h2,
      show ∀ (x : ℚ) (xs : List ℚ), List.take 1 (x :: xs) = [x] from fun x xs => rfl]
    simp

/-- C3: with channel count `c ≥ 1` and input length divisible by `c`,
`to_mono` yields one sample per frame (input length / c), each the arithmetic
mean of the `c` interleaved values of its frame; for `c = 1` it is the
identity. -/
theorem to_mono_spec (samples : List ℚ) (c : ℕ) (hc : 0 < c)
    (hdvd : c ∣ samples.length) :
    (to_mono samples c).length = samples.length / c ∧
    (∀ i (h : i < (to_mono samples c).length),
      (to_mono samples c).get ⟨i, h⟩ =
        ((samples.drop (i * c)).take c).sum / (c : ℚ)) ∧
    (∀ l : List ℚ, to_mono l 1 = l) := by
  refine ⟨?_, fun i h => ?_, to_mono_one⟩
  · simp only [to_mono, List.length_map, chunks_length]
    exact add_pred_div_of_dvd hc hdvd
  · have hch : i < (chunks c samples).length := by
      simpa [to_mono] using h
    simp only [to_mono, List.get_eq_getElem, List.getElem_map]
    have := chunks_getElem c samples i hch
    simp only [List.get_eq_getElem] at this
    rw [this]

/-- C3 witness: the spec's stereo example `[0.5, 0.3, 0.8, 0.2, 1.0, 0.0]`
downmixes to three samples. -/
theorem to_mono_spec_witness :
    (to_mono [1/2, 3/10, 4/5, 1/5, 1, 0] 2).length =
      ([1/2, 3/10, 4/5, 1/5, 1, 0] : List ℚ).length / 2 :=
  (to_mono_spec [1/2, 3/10, 4/5, 1/5, 1, 0] 2 (by decide) (by decide)).1

theorem resample_length (samples : List ℚ) (s t : ℕ) (hs : 0 < s) (ht : 0 < t) :
    (resample samples s t).length = (⌈(samples.length : ℚ) * t / s⌉).toNat := by
  by_cases h : s = t
  · subst h
    have hs' : ((s : ℚ)) ≠ 0 := Nat.cast_ne_zero.mpr hs.ne'
    rw [show resample samples s s = samples from by simp [resample]]
    rw [mul_div_cancel_right₀ _ hs', Int.ceil_natCast, Int.toNat_natCast]
  · simp only [resample, if_neg h, List.length_map, List.length_range]
    rw [div_div_eq_mul_div]

/-- C1: for positive rates, `resample` has length
`ceil(len * target / source)`, output sample `i` reads the input at index
`floor(i * source / target)` (defaulting to 0 when out of range), and equal
rates return the input unchanged. -/
theorem resample_spec (samples : List ℚ) (s t : ℕ) (hs : 0 < s) (ht : 0 < t) :
    (resample samples s t).length = (⌈(samples.length : ℚ) * t / s⌉).toNat ∧
    (∀ i, i < (resample samples s t).length →
      (resample samples s t).getD i 0 =
        samples.getD ((⌊(i : ℚ) * s / t⌋).toNat) 0) ∧
    (∀ u : ℕ, resample samples u u = samples) := by
  refine ⟨resample_length samples s t hs ht, fun i h => ?_, fun u => by simp [resample]⟩
  by_cases hst : s = t
  · subst hst
    have hs' : ((s : ℚ)) ≠ 0 := Nat.cast_ne_zero.mpr hs.ne'
    have hidx : (⌊(i : ℚ) * s / s⌋).toNat = i := by
      rw [mul_div_cancel_right₀ _ hs', Int.floor_natCast, Int.toNat_natCast]
    have hres : resample samples s s = samples := by simp [resample]
    rw [hres, hidx]
  · have hres : resample samples s t = (List.range
        ((⌈(samples.length : ℚ) / ((s : ℚ) / (t : ℚ))⌉).toNat)).map
        (fun j => samples.getD (srcIdx ((s : ℚ) / (t : ℚ)) j) 0) := by
      simp [resample, hst]
    rw [hres] at h ⊢
    rw [List.getD_eq_getElem _ _ h]
    simp only [List.getElem_map, List.getElem_range]
    congr 1
    simp only [srcIdx]
    rw [mul_div_assoc]

/-- C1 witness: downsampling four samples from rate 2 to rate 1. -/
theorem resample_spec_witness :
    (resample [1, 2, 3, 4] 2 1).length =
      (⌈(([1, 2, 3, 4] : List ℚ).length : ℚ) * 1 / 2⌉).toNat :=
  (resample_spec [1, 2, 3, 4] 2 1 (by decide) (by decide)).1

/-- C10: when the rates differ (and are positive), every computed source
index lies inside the input, so the out-of-range default 0 is unreachable
and every output sample is one of the input samples. -/
theorem resample_no_default (samples : List ℚ) (s t : ℕ) (hs : 0 < s) (ht : 0 < t)
    (hst : s ≠ t) :
    (∀ i, i < (resample samples s t).length →
      srcIdx ((s : ℚ) / (t : ℚ)) i < samples.length) ∧
    (∀ x, x ∈ resample samples s t → x ∈ samples) := by
  have hs' : (0 : ℚ) < (s : ℚ) := by exact_mod_cast hs
  have ht' : (0 : ℚ) < (t : ℚ) := by exact_mod_cast ht
  have hr : (0 : ℚ) < (s : ℚ) / t := div_pos hs' ht'
  have key : ∀ i, i < (resample samples s t).length →
      srcIdx ((s : ℚ) / (t : ℚ)) i < samples.length := by
    intro i hi
    rw [resample_length samples s t hs ht] at hi
    have h1 : (i : ℤ) < ⌈(samples.length : ℚ) * t / s⌉ := Int.lt_toNat.mp hi
    have h2 : (i : ℚ) < (samples.length : ℚ) * t / s := by
      exact_mod_cast Int.lt_ceil.mp h1
    have h3 : (i : ℚ) * ((s : ℚ) / t) < (samples.length : ℚ) := by
      calc (i : ℚ) * ((s : ℚ) / t)
          < ((samples.length : ℚ) * t / s) * ((s : ℚ) / t) :=
            mul_lt_mul_of_pos_right h2 hr
        _ = (samples.length : ℚ) := by field_simp
    have h4 : ⌊(i : ℚ) * ((s : ℚ) / t)⌋ < (samples.length : ℤ) := by
      rw [Int.floor_lt]
      exact_mod_cast h3
    have h5 : 0 ≤ ⌊(i : ℚ) * ((s : ℚ) / t)⌋ :=
      Int.floor_nonneg.mpr (by positivity)
    simp only [srcIdx]
    omega
  refine ⟨key, fun x hx => ?_⟩
  have hx' : x ∈ (List.range
      ((⌈(samples.length : ℚ) / ((s : ℚ) / (t : ℚ))⌉).toNat)).map
      (fun i => samples.getD (srcIdx ((s : ℚ) / (t : ℚ)) i) 0) := by
    simpa [resample, hst] using hx
  obtain ⟨i, hi, rfl⟩ := List.mem_map.mp hx'
  have hi' : i < (resample samples s t).length := by
    simp only [resample, if_neg hst, List.length_map, List.length_range]
    exact List.mem_range.mp hi
  rw [List.getD_eq_getElem _ _ (key i hi')]
  exact List.getElem_mem _

/-- C10 witness: at rates 2 and 1, output index 0 reads input index 0 of a
four-sample input. -/
theorem resample_no_default_witness :
    srcIdx ((2 : ℚ) / (1 : ℚ)) 0 < ([1, 2, 3, 4] : List ℚ).length :=
  (resample_no_default [1, 2, 3, 4] 2 1 (by decide) (by decide) (by decide)).1 0 (by
    rw [resample_length [1, 2, 3, 4] 2 1 (by decide) (by decide),
      show ⌈(([1, 2, 3, 4] : List ℚ).length : ℚ) * ((1 : ℕ) : ℚ) / ((2 : ℕ) : ℚ)⌉ = 2
        from by norm_num]
    decide)

/-- C6: a callback invocation with the recording flag down changes nothing:
the buffer is untouched and the lock is never taken. -/
theorem callback_idle_noop (channels : ℕ) (needsRes : Bool) (r : ℚ)
    (buf data : List ℚ) :
    (record_audio_callback false channels needsRes r buf data).buffer = buf ∧
    (record_audio_callback false channels needsRes r buf data).lockAcquired = false :=
  ⟨rfl, rfl⟩

theorem targetIdx_zero (r : ℚ) : targetIdx r 0 = 0 := by
  simp [targetIdx]

theorem targetIdx_succ_le (r : ℚ) (hr : 1 ≤ r) (i : ℕ) :
    targetIdx r (i + 1) ≤ targetIdx r i + 1 := by
  have hr0 : (0 : ℚ) < r := lt_of_lt_of_le one_pos hr
  have hdiv : ((i : ℚ) + 1) / r ≤ (i : ℚ) / r + 1 := by
    rw [add_div]
    have h1 : (1 : ℚ) / r ≤ 1 := by
      rw [div_le_one hr0]
      exact hr
    linarith
  have hfloor : ⌊((i : ℚ) + 1) / r⌋ ≤ ⌊(i : ℚ) / r⌋ + 1 := by
    calc ⌊((i : ℚ) + 1) / r⌋ ≤ ⌊(i : ℚ) / r + 1⌋ := Int.floor_le_floor hdiv
      _ = ⌊(i : ℚ) / r⌋ + 1 := Int.floor_add_one _
  have hcast : (((i + 1 : ℕ)) : ℚ) = (i : ℚ) + 1 := by push_cast; ring
  simp only [targetIdx, hcast]
  omega

theorem targetIdx_lt_of_lt_one (r : ℚ) (hr0 : 0 < r) (hr1 : r < 1) (i : ℕ)
    (hi : 1 ≤ i) : targetIdx r (i - 1) < targetIdx r i := by
  have hcast : ((i : ℕ) : ℚ) = ((i - 1 : ℕ) : ℚ) + 1 := by
    have h : i - 1 + 1 = i := by omega
    rw [← h]
    push_cast
    ring
  have hdiv : ((i - 1 : ℕ) : ℚ) / r + 1 < (((i - 1 : ℕ) : ℚ) + 1) / r := by
    rw [add_div]
    have h2 : (1 : ℚ) < 1 / r := one_lt_one_div hr0 hr1
    linarith
  have hfl : ⌊((i - 1 : ℕ) : ℚ) / r⌋ + 1 ≤ ⌊(((i - 1 : ℕ) : ℚ) + 1) / r⌋ := by
    calc ⌊((i - 1 : ℕ) : ℚ) / r⌋ + 1
        = ⌊((i - 1 : ℕ) : ℚ) / r + 1⌋ := (Int.floor_add_one _).symm
      _ ≤ ⌊(((i - 1 : ℕ) : ℚ) + 1) / r⌋ := Int.floor_le_floor hdiv.le
  have hnn : 0 ≤ ⌊((i - 1 : ℕ) : ℚ) / r⌋ :=
    Int.floor_nonneg.mpr (div_nonneg (Nat.cast_nonneg _) hr0.le)
  simp only [targetIdx, hcast]
  omega

theorem callbackLoop_decimate (r : ℚ) (hr : 0 < r) (channels : ℕ) :
    ∀ (cs : List (List ℚ)) (i : ℕ) (b : List ℚ), 1 ≤ i →
      (1 ≤ r → targetIdx r (i - 1) < b.length) →
      callbackLoop true r channels i b cs = b ++ specTail r channels i cs := by
  intro cs
  induction cs with
  | nil =>
      intro i b _ _
      simp [callbackLoop, specTail]
  | cons chunk rest ih =>
      intro i b hi hinv
      by_cases heq : targetIdx r i = targetIdx r (i - 1)
      · have hr1 : 1 ≤ r := by
          by_contra hlt
          push_neg at hlt
          exact absurd heq (targetIdx_lt_of_lt_one r hr hlt i hi).ne'
        have hlt : targetIdx r i < b.length := heq ▸ hinv hr1
        have hne : b ≠ [] := by
          intro hb0
          rw [hb0] at hlt
          simp at hlt
        have hcond : ¬(b.length ≤ targetIdx r i ∨ b = [] ∨
            targetIdx r i ≠ targetIdx r (i - 1)) := by
          push_neg
          exact ⟨hlt, hne, heq⟩
        have hstep : decimateStep r b i (chunk.sum / (channels : ℚ)) = b := by
          simp only [decimateStep, if_neg hcond]
        simp only [callbackLoop, if_true, hstep]
        rw [ih (i + 1) b (by omega) (fun _ => by simpa using hlt)]
        simp only [specTail, if_pos heq, List.nil_append]
      · have hcond : b.length ≤ targetIdx r i ∨ b = [] ∨
            targetIdx r i ≠ targetIdx r (i - 1) := Or.inr (Or.inr heq)
        have hstep : decimateStep r b i (chunk.sum / (channels : ℚ)) =
            b ++ [chunk.sum / (channels : ℚ)] := by
          simp only [decimateStep, if_pos hcond]
        have hbound : 1 ≤ r → targetIdx r i <
            (b ++ [chunk.sum / (channels : ℚ)]).length := by
          intro hr1
          have h1 : targetIdx r ((i - 1) + 1) ≤ targetIdx r (i - 1) + 1 :=
            targetIdx_succ_le r hr1 (i - 1)
          have h2 : (i - 1) + 1 = i := by omega
          rw [h2] at h1
          have h3 := hinv hr1
          simp only [List.length_append, List.length_cons, List.length_nil]
          omega
        simp only [callbackLoop, if_true, hstep]
        rw [ih (i + 1) (b ++ [chunk.sum / (channels : ℚ)]) (by omega)
          (fun hr1 => by simpa using hbound hr1)]
        simp only [specTail, if_neg heq, List.append_assoc, List.singleton_append,
          List.cons_append, List.nil_append]

/-- C2 (amended): when the precomputed resample flag is set and the
precomputed ratio is positive, a callback invocation in the recording
state appends, in arrival order: the downmixed frame at position 0 iff the
capture buffer is empty at entry, and each downmixed frame at position
`i ≥ 1` iff its target index differs from the previous frame's. -/
theorem record_audio_decimation (r : ℚ) (hr : 0 < r) (channels : ℕ)
    (buf data : List ℚ) :
    (record_audio_callback true channels true r buf data).buffer =
      specDecimate r channels buf (chunks channels data) := by
  have hbuffer : (record_audio_callback true channels true r buf data).buffer =
      callbackLoop true r channels 0 buf (chunks channels data) := rfl
  rw [hbuffer]
  generalize chunks channels data = cs
  cases cs with
  | nil => rfl
  | cons chunk rest =>
      by_cases hbuf : buf = []
      · subst hbuf
        have hstep : decimateStep r [] 0 (chunk.sum / (channels : ℚ)) =
            [chunk.sum / (channels : ℚ)] := by
          simp [decimateStep]
        simp only [callbackLoop, if_true, hstep]
        rw [callbackLoop_decimate r hr channels rest 1 _ (le_refl 1)
          (fun _ => by simp [targetIdx_zero])]
        simp [specDecimate]
      · have hcond : ¬(buf.length ≤ targetIdx r 0 ∨ buf = [] ∨
            targetIdx r 0 ≠ targetIdx r (0 - 1)) := by
          push_neg
          refine ⟨?_, hbuf, rfl⟩
          rw [targetIdx_zero]
          exact List.length_pos.mpr hbuf
        have hstep : decimateStep r buf 0 (chunk.sum / (channels : ℚ)) = buf := by
          simp only [decimateStep, if_neg hcond]
        simp only [callbackLoop, if_true, hstep]
        rw [callbackLoop_decimate r hr channels rest 1 buf (le_refl 1)
          (fun _ => by
            rw [show (1 : ℕ) - 1 = 0 from rfl, targetIdx_zero]
            exact List.length_pos.mpr hbuf)]
        simp [specDecimate, hbuf]

/-- C2 amended-claim witness: ratio 3 (a 48 kHz device decimated to
16 kHz), mono frames, empty buffer at entry. -/
theorem record_audio_decimation_witness :
    (record_audio_callback true 1 true 3 [] [1, 1, 1, 1]).buffer =
      specDecimate 3 1 [] (chunks 1 [1, 1, 1, 1]) :=
  record_audio_decimation 3 (by norm_num) 1 [] [1, 1, 1, 1]

/-- C2 counterexample, both halves of the claimed "iff" fail on frame 0.
With ratio 3, one channel and an empty capture buffer, the frames at
positions 0, 1, 2 all have target index 0 — none differs from the index
computed for its predecessor — yet the callback appends one sample.  And
with a nonempty capture buffer `[5]`, the single frame at position 0 (a
fresh distinct target index, with no previous frame) is appended nowhere:
its target index contributes zero samples. -/
theorem record_audio_decimation_cex :
    (record_audio_callback true 1 true 3 [] [1, 1, 1]).buffer = [1] ∧
    targetIdx 3 0 = targetIdx 3 (0 - 1) ∧
    targetIdx 3 1 = targetIdx 3 (1 - 1) ∧
    targetIdx 3 2 = targetIdx 3 (2 - 1) ∧
    (record_audio_callback true 1 true 3 [5] [1]).buffer = [5] := by
  have h0 : targetIdx 3 0 = 0 := by norm_num [targetIdx]
  have h1 : targetIdx 3 1 = 0 := by norm_num [targetIdx]
  have h2 : targetIdx 3 2 = 0 := by norm_num [targetIdx]
  refine ⟨?_, rfl, ?_, ?_, ?_⟩
  · have hc : chunks 1 [1, 1, 1] = [[1], [1], [1]] := rfl
    have hs : (([1] : List ℚ).sum / ((1 : ℕ) : ℚ)) = 1 := by norm_num
    have hbuffer : (record_audio_callback true 1 true 3 [] [1, 1, 1]).buffer =
        callbackLoop true 3 1 0 [] (chunks 1 [1, 1, 1]) := rfl
    rw [hbuffer, hc]
    simp only [callbackLoop, if_true, decimateStep, hs, h0, h1, h2]
    norm_num
  · rw [h1, show (1 : ℕ) - 1 = 0 from rfl, h0]
  · rw [h2, show (2 : ℕ) - 1 = 1 from rfl, h1]
  · have hc : chunks 1 [1] = [[1]] := rfl
    have hbuffer : (record_audio_callback true 1 true 3 [5] [1]).buffer =
        callbackLoop true 3 1 0 [5] (chunks 1 [1]) := rfl
    rw [hbuffer, hc]
    simp only [callbackLoop, if_true, decimateStep, h0]
    norm_num

/-- C5: the recording flag makes exactly two transitions — a start signal
while idle raises it (clearing the buffer and the stop-request flag), and a
stop signal while recording lowers it; a start signal while recording and a
stop signal while idle leave the whole state (buffer included) unchanged. -/
theorem state_machine_transitions
    (engine : List ℚ → Except (List Char) TranscribeResult) (s : DaemonState) :
    (s.recording = false → handleSignal engine s .sigusr1 =
      { s with buffer := [], stopRequested := false, recording := true }) ∧
    (s.recording = true → handleSignal engine s .sigusr1 = s) ∧
    (s.recording = false → handleSignal engine s .sigusr2 = s) ∧
    (s.recording = true → (handleSignal engine s .sigusr2).recording = false) := by
  refine ⟨fun h => by simp [handleSignal, h], fun h => by simp [handleSignal, h],
    fun h => by simp [handleSignal, h], fun h => ?_⟩
  simp only [handleSignal, h, if_true]
  by_cases hb : s.buffer = []
  · simp [hb]
  · cases heng : engine s.buffer with
    | ok result =>
        by_cases htr : trim result.text = [] <;>
          simp [hb, heng, htr, type_text]
    | error e => simp [hb, heng]

/-- C5 witness: a start signal in a concrete idle state raises the flag and
clears the buffer. -/
theorem state_machine_transitions_witness :
    handleSignal engine0 idle0 .sigusr1 =
      { idle0 with buffer := [], stopRequested := false, recording := true } :=
  (state_machine_transitions engine0 idle0).1 rfl

/-- C7: a stop signal received while recording with an empty capture buffer
invokes neither the transcription engine nor the keystroke injector, and
returns the machine to idle. -/
theorem stop_empty_no_dispatch
    (engine : List ℚ → Except (List Char) TranscribeResult) (s : DaemonState)
    (hrec : s.recording = true) (hbuf : s.buffer = []) :
    (handleSignal engine s .sigusr2).engineCalls = s.engineCalls ∧
    (handleSignal engine s .sigusr2).injected = s.injected ∧
    (handleSignal engine s .sigusr2).recording = false := by
  refine ⟨?_, ?_, ?_⟩ <;> simp [handleSignal, hrec, hbuf]

/-- C7 witness: stopping from a concrete recording state with an empty
buffer. -/
theorem stop_empty_no_dispatch_witness :
    (handleSignal engine0 rec0 .sigusr2).engineCalls = rec0.engineCalls ∧
    (handleSignal engine0 rec0 .sigusr2).injected = rec0.injected ∧
    (handleSignal engine0 rec0 .sigusr2).recording = false :=
  stop_empty_no_dispatch engine0 rec0 rfl rfl

/-- C8: `type_text` is a no-op on text that trims to empty, and no
signal-loop iteration ever adds an injector invocation whose text trims to
empty — the injector is only called with non-empty, non-whitespace-only
text. -/
theorem injector_nonempty
    (engine : List ℚ → Except (List Char) TranscribeResult) (s : DaemonState)
    (sig : Signal) :
    (∀ (inj : List (List Char)) (text : List Char),
      trim text = [] → type_text inj text = inj) ∧
    (∀ text, text ∈ (handleSignal engine s sig).injected →
      text ∈ s.injected ∨ trim text ≠ []) := by
  constructor
  · intro inj text h
    simp [type_text, h]
  · intro text hmem
    cases sig with
    | sigusr1 =>
        left
        cases hrec : s.recording <;> simpa [handleSignal, hrec] using hmem
    | sigterm =>
        left
        simpa [handleSignal] using hmem
    | sigint =>
        left
        simpa [handleSignal] using hmem
    | sigusr2 =>
        cases hrec : s.recording with
        | false =>
            left
            simpa [handleSignal, hrec] using hmem
        | true =>
            by_cases hb : s.buffer = []
            · left
              simpa [handleSignal, hrec, hb] using hmem
            · cases heng : engine s.buffer with
              | error e =>
                  left
                  simpa [handleSignal, hrec, hb, heng] using hmem
              | ok result =>
                  by_cases htr : trim result.text = []
                  · left
                    simpa [handleSignal, hrec, hb, heng, htr] using hmem
                  · have hmem' : text ∈ type_text s.injected (trim result.text) := by
                      simpa [handleSignal, hrec, hb, heng, htr] using hmem
                    by_cases htr2 : trim (trim result.text) = []
                    · left
                      simpa [type_text, htr2] using hmem'
                    · rw [type_text, if_neg htr2] at hmem'
                      rcases List.mem_append.mp hmem' with h | h
                      · exact Or.inl h
                      · right
                        rw [List.mem_singleton.mp h]
                        exact htr2

/-- C8 witness: `type_text` skips a single-blank text. -/
theorem injector_nonempty_witness : type_text [] [' '] = [] :=
  (injector_nonempty engine0 rec0 .sigusr1).1 [] [' '] (by decide)

/-- C9 counterexample: when writing the PID marker fails, the process exits
with status 1 but `remove_pid_file` is never invoked, so startup does not
perform marker removal on every fatal path. -/
theorem startup_fatal_cex :
    (startup ⟨false, true, true, true⟩).exitCode = some 1 ∧
    (startup ⟨false, true, true, true⟩).pidRemoved = false :=
  ⟨rfl, rfl⟩

/-- C9 (amended): every startup failure terminates the process with status 1
(never 0); model-load, audio-setup and stream-start failures remove the PID
marker first, while a marker-write failure exits without attempting removal;
startup continues (no exit) exactly when all four steps succeed. -/
theorem startup_fatal_exit (env : StartupEnv) :
    ((startup env).exitCode = none ↔
      (env.pidWriteOk = true ∧ env.modelLoadOk = true ∧
        env.audioSetupOk = true ∧ env.streamPlayOk = true)) ∧
    ((startup env).exitCode = none ∨ (startup env).exitCode = some 1) ∧
    ((startup env).pidRemoved = true ↔
      (env.pidWriteOk = true ∧ ¬(env.modelLoadOk = true ∧
        env.audioSetupOk = true ∧ env.streamPlayOk = true))) := by
  obtain ⟨p, m, a, st⟩ := env
  cases p <;> cases m <;> cases a <;> cases st <;> exact ⟨by decide, by decide, by decide⟩

end Hammertalk
